import Mathlib

/-!
Verification development for the `prelax-email-api` multi-account email
dispatch scheduler (`src/controllers/emailController.js` and the batch route
in `src/routes/api.js`).

The JavaScript module state is modelled explicitly:
* `accounts` (the loaded account list) together with the shared rotation
  cursor `currentAccountIndex` and the `accountUsage` map form a `SchedState`;
  the usage map is modelled as a total function from account ids to records
  (only ids of registered accounts are ever read).
* Calendar dates (`new Date().toDateString()`) are abstracted to a discrete
  day value `today : Nat`, compared only for equality, exactly as the code
  compares date strings.
* The external nodemailer transport is an oracle `mailer : Nat → MailOutcome`
  giving the outcome of the n-th `transporter.sendMail` invocation; the
  envelope construction (addresses, subject, bodies, message id) only feeds
  this external call and carries no scheduler state, so it is not modelled.
* `setTimeout` backoff waits are recorded as a list of delay durations in
  milliseconds, in the order they are awaited.
-/

namespace PrelaxEmail

/-- An account entry of `config/accounts.json` as read by `loadAccounts`.
Only the fields the scheduler logic reads are kept: `id` (the lookup key)
and the optional `dailyLimit` (`undefined` = unlimited).  Credentials,
service and display name only feed the external transport. -/
structure Account where
  id : String
  dailyLimit : Option Nat
deriving DecidableEq, Repr

/-- One entry of the `accountUsage` map:
`{ sentToday, lastReset, isRateLimited }`. -/
structure UsageRecord where
  sentToday : Nat
  lastReset : Nat
  isRateLimited : Bool
deriving DecidableEq, Repr

/-- The module-level mutable state of `emailController.js`:
the loaded `accounts` array, the `accountUsage` map and the shared
rotation cursor `currentAccountIndex`. -/
structure SchedState where
  accounts : List Account
  usage : String → UsageRecord
  cursor : Nat

/-- The body of the `accountUsage.forEach` callback in
`checkAndResetLimits`: on a date mismatch the record is zeroed for the
new day, otherwise it is untouched. -/
def rollRecord (today : Nat) (r : UsageRecord) : UsageRecord :=
  if r.lastReset ≠ today then
    { sentToday := 0, lastReset := today, isRateLimited := false }
  else r

/-- `checkAndResetLimits`: walk every usage record and roll it over if its
`lastReset` day differs from today. -/
def checkAndResetLimits (today : Nat) (u : String → UsageRecord) :
    String → UsageRecord :=
  fun id => rollRecord today (u id)

/-- The eligibility test of `getNextAccount`:
`!usage.isRateLimited && (account.dailyLimit === undefined ||
usage.sentToday < account.dailyLimit)`. -/
def eligible (a : Account) (r : UsageRecord) : Bool :=
  !r.isRateLimited &&
    (match a.dailyLimit with
     | none => true
     | some d => decide (r.sentToday < d))

/-- Result of one `getNextAccount()` call: an eligible account, or one of
the two selection failures thrown by the function
(`503 No email accounts configured`, `429 All email accounts have reached
their daily sending limits`). -/
inductive SelectResult where
  | ok (a : Account)
  | noAccounts
  | allExhausted
deriving DecidableEq, Repr

/-- The `for (let i = 0; i < accounts.length; i++)` scan of
`getNextAccount`: each probe first advances the cursor by one position
modulo the account count, then tests eligibility; the fuel is the number
of probes left.  Returns the found account (if any) and the final cursor. -/
def probeLoop (accounts : List Account) (u : String → UsageRecord) :
    Nat → Nat → Option Account × Nat
  | cursor, 0 => (none, cursor)
  | cursor, fuel + 1 =>
    let c := (cursor + 1) % accounts.length
    match accounts[c]? with
    | some a => if eligible a (u a.id) then (some a, c) else probeLoop accounts u c fuel
    | none => (none, c)

/-- `getNextAccount`: run `checkAndResetLimits`, fail with `noAccounts` when
the account list is empty, otherwise scan at most one full pass of the
rotation starting after the current cursor. -/
def getNextAccount (today : Nat) (st : SchedState) : SelectResult × SchedState :=
  let u := checkAndResetLimits today st.usage
  if st.accounts.length = 0 then
    (.noAccounts, { st with usage := u })
  else
    match probeLoop st.accounts u st.cursor st.accounts.length with
    | (some a, c) => (.ok a, { st with usage := u, cursor := c })
    | (none, c) => (.allExhausted, { st with usage := u, cursor := c })

/-- The state right after `loadAccounts` succeeds: every configured account
gets a zeroed usage record stamped with the load day, and the rotation
cursor starts at `0`. -/
def initState (accounts : List Account) (today : Nat) : SchedState :=
  { accounts := accounts
    usage := fun _ => { sentToday := 0, lastReset := today, isRateLimited := false }
    cursor := 0 }

/-! ## Dispatch engine (`sendEmail`) -/

/-- Outcome of one `transporter.sendMail` invocation, as produced by the
external nodemailer transport: success, or a rejection carrying the
provider's optional `responseCode` and an error `message`. -/
inductive MailOutcome where
  | success
  | failure (responseCode : Option Nat) (message : String)
deriving DecidableEq, Repr

/-- An error value observed by the `catch` block of `sendEmail`.  An
`ApiError` thrown by account resolution carries a `statusCode` and no
`responseCode`; a transport error carries an optional `responseCode`;
both carry a `message`. -/
structure CaughtError where
  statusCode : Option Nat
  responseCode : Option Nat
  message : String
deriving DecidableEq, Repr

/-- The `ApiError` that `sendEmail` ultimately throws to its caller:
an HTTP status code and a message. -/
structure ApiError where
  statusCode : Nat
  message : String
deriving DecidableEq, Repr

/-- The successful return value of `sendEmail`; of its fields
(`success`, `messageId`, `accountId`, `sentAt`, `accepted`, `rejected`)
only `accountId` is scheduler data, the rest echo the transport. -/
structure SendOk where
  accountId : String
deriving DecidableEq, Repr

def noAccountsMsg : String := "No email accounts configured"

def allExhaustedMsg : String :=
  "All email accounts have reached their daily sending limits"

def notFoundMsg (accountId : String) : String :=
  "Account with ID " ++ accountId ++ " not found"

/-- The account-resolution step at the top of `sendEmail`'s `try` block:
with an explicit `accountId`, look the account up (throwing a `404` when
absent, without touching the state); otherwise take the rotation path
through `getNextAccount`, whose state effects (rollover, cursor advance)
persist even when it throws. -/
def resolveAccount (today : Nat) (accId : Option String) (st : SchedState) :
    Except CaughtError Account × SchedState :=
  match accId with
  | some aid =>
    match st.accounts.find? (fun a => a.id == aid) with
    | some a => (.ok a, st)
    | none => (.error ⟨some 404, none, notFoundMsg aid⟩, st)
  | none =>
    match getNextAccount today st with
    | (.ok a, st') => (.ok a, st')
    | (.noAccounts, st') => (.error ⟨some 503, none, noAccountsMsg⟩, st')
    | (.allExhausted, st') => (.error ⟨some 429, none, allExhaustedMsg⟩, st')

/-- `usage.sentToday++` for the chosen account, leaving every other
record untouched. -/
def recordSent (aid : String) (u : String → UsageRecord) :
    String → UsageRecord :=
  fun id => if id = aid then { u id with sentToday := (u id).sentToday + 1 } else u id

/-- `accountUsage.get(account.id).isRateLimited = true` for the account
held responsible for a throttle signal. -/
def markRateLimited (aid : String) (u : String → UsageRecord) :
    String → UsageRecord :=
  fun id => if id = aid then { u id with isRateLimited := true } else u id

/-- The provider response codes `[421, 450, 550, 552, 554]` treated as a
throttle/rejection signal by `sendEmail`'s `catch` block. -/
def throttleCodes : List Nat := [421, 450, 550, 552, 554]

/-- The rate-limit classification step of the `catch` block: when the
caught error's `responseCode` is one of `throttleCodes`, mark the
responsible account — `accounts.find(acc => acc.id === accountId)` on the
explicit path, `accounts[currentAccountIndex]` on the rotation path —
as rate limited (skipping the mark when no such account exists). -/
def markIfThrottled (e : CaughtError) (accId : Option String) (st : SchedState) :
    SchedState :=
  match e.responseCode with
  | some c =>
    if c ∈ throttleCodes then
      let acct? : Option Account := match accId with
        | some aid => st.accounts.find? (fun a => a.id == aid)
        | none => st.accounts[st.cursor]?
      match acct? with
      | some a => { st with usage := markRateLimited a.id st.usage }
      | none => st
    else st
  | none => st

/-- One pass through `sendEmail`'s `try` body: resolve the account, invoke
the transport (consuming the next mailer index), and on success increment
the chosen account's `sentToday`.  The returned `Nat` is the next unused
mailer index, so `idx' - idx` is the number of `sendMail` invocations
(0 when resolution itself threw). -/
def attempt (today : Nat) (accId : Option String) (mailer : Nat → MailOutcome)
    (st : SchedState) (idx : Nat) : Except CaughtError SendOk × SchedState × Nat :=
  match resolveAccount today accId st with
  | (.error e, st₁) => (.error e, st₁, idx)
  | (.ok a, st₁) =>
    match mailer idx with
    | .success => (.ok ⟨a.id⟩, { st₁ with usage := recordSent a.id st₁.usage }, idx + 1)
    | .failure code msg => (.error ⟨none, code, msg⟩, st₁, idx + 1)

/-- One `try`/`catch` round of `sendEmail`: the attempt, followed (on any
caught error) by the rate-limit classification of the `catch` block. -/
def attemptStep (today : Nat) (accId : Option String) (mailer : Nat → MailOutcome)
    (st : SchedState) (idx : Nat) : Except CaughtError SendOk × SchedState × Nat :=
  match attempt today accId mailer st idx with
  | (.ok r, st', idx') => (.ok r, st', idx')
  | (.error e, st', idx') => (.error e, markIfThrottled e accId st', idx')

def MAX_RETRIES : Nat := 3

/-- `RETRY_DELAY = 1000` milliseconds. -/
def RETRY_DELAY : Nat := 1000

/-- The terminal failure message
``Failed to send email after ${MAX_RETRIES} attempts: ${error.message}``. -/
def failedAfterMsg (lastMsg : String) : String :=
  "Failed to send email after " ++ toString MAX_RETRIES ++ " attempts: " ++ lastMsg

/-- Everything `sendEmail` produces: the value returned or the `ApiError`
thrown, the final module state, the next unused mailer index, and the
backoff delays awaited (in order, milliseconds). -/
structure SendTrace where
  result : Except ApiError SendOk
  state : SchedState
  nextIdx : Nat
  delays : List Nat

/-- The recursive retry flow of `sendEmail`, parameterised by the number
of retries still allowed; `retriesLeft = MAX_RETRIES - retryCount`, so the
`retryCount < MAX_RETRIES` guard is `retriesLeft > 0`, and the backoff
delay `RETRY_DELAY * Math.pow(2, retryCount)` is
`RETRY_DELAY * 2 ^ (MAX_RETRIES - retriesLeft)`. -/
def sendLoop (today : Nat) (accId : Option String) (mailer : Nat → MailOutcome)
    (st : SchedState) (idx : Nat) : Nat → SendTrace
  | retriesLeft + 1 =>
    match attemptStep today accId mailer st idx with
    | (.ok r, st', idx') => ⟨.ok r, st', idx', []⟩
    | (.error _, st', idx') =>
      let t := sendLoop today accId mailer st' idx' retriesLeft
      { t with
        delays := RETRY_DELAY * 2 ^ (MAX_RETRIES - (retriesLeft + 1)) :: t.delays }
  | 0 =>
    match attemptStep today accId mailer st idx with
    | (.ok r, st', idx') => ⟨.ok r, st', idx', []⟩
    | (.error e, st', idx') => ⟨.error ⟨503, failedAfterMsg e.message⟩, st', idx', []⟩

/-- `sendEmail(to, content, accountId)`: an initial call has
`retryCount = 0`, i.e. all `MAX_RETRIES` retries available.  The recipient
and content arguments only feed the transport envelope and are absorbed by
the mailer oracle. -/
def sendEmail (today : Nat) (accId : Option String) (mailer : Nat → MailOutcome)
    (st : SchedState) (idx : Nat) : SendTrace :=
  sendLoop today accId mailer st idx MAX_RETRIES

/-- The sequence of backoff delays produced when `retriesLeft` retries are
all consumed by consecutive failures. -/
def backoffDelays : Nat → List Nat
  | 0 => []
  | retriesLeft + 1 =>
    RETRY_DELAY * 2 ^ (MAX_RETRIES - (retriesLeft + 1)) :: backoffDelays retriesLeft

/-! ## Template substitution and the batch route (`/api/send/batch`) -/

/-- The characters matched by the regex class `\s` (ASCII part); the
placeholder regex is `\{\s*key\s*\}`. -/
def isSpaceChar (c : Char) : Bool :=
  c = ' ' || c = '\t' || c = '\n' || c = '\r' || c = '\x0b' || c = '\x0c'

/-- Try to match the regex `\{\s*key\s*\}` at the head of `s`; on a match,
return the remainder of `s` after the closing brace.  (`key` never contains
regex metacharacters or whitespace in the theorems below, so literal
matching coincides with the compiled regex.) -/
def matchPlaceholder (key : List Char) (s : List Char) : Option (List Char) :=
  match s with
  | [] => none
  | c :: rest =>
    if c = '{' then
      let r1 := rest.dropWhile isSpaceChar
      if key.isPrefixOf r1 then
        match (r1.drop key.length).dropWhile isSpaceChar with
        | [] => none
        | c2 :: r3 => if c2 = '}' then some r3 else none
      else none
    else none

theorem matchPlaceholder_length {key : List Char} :
    ∀ {s r : List Char}, matchPlaceholder key s = some r → r.length < s.length := by
  intro s r h
  cases s with
  | nil => simp [matchPlaceholder] at h
  | cons c rest =>
    simp only [matchPlaceholder] at h
    split at h
    · split at h
      · split at h
        · exact absurd h (by simp)
        · rename_i heq
          split at h
          · injection h with h
            subst h
            have hlen := congrArg List.length heq
            simp only [List.length_cons] at hlen
            have h4 : (((rest.dropWhile isSpaceChar).drop key.length).dropWhile
                isSpaceChar).length ≤
                ((rest.dropWhile isSpaceChar).drop key.length).length :=
              (List.dropWhile_suffix _).length_le
            have h5 : ((rest.dropWhile isSpaceChar).drop key.length).length ≤
                (rest.dropWhile isSpaceChar).length := by
              simp [List.length_drop]
            have h6 : (rest.dropWhile isSpaceChar).length ≤ rest.length :=
              (List.dropWhile_suffix _).length_le
            simp only [List.length_cons]
            omega
          · exact absurd h (by simp)
      · exact absurd h (by simp)
    · exact absurd h (by simp)

/-- The global replacement `template.replace(/\{\s*key\s*\}/g, value)`:
scan left to right; at a match, emit `value` (which is never rescanned) and
continue after the match; otherwise copy one character.  (JavaScript's
special `$`-sequences in the replacement string are not modelled; the
theorems below restrict values to `$`-free strings.) -/
def substChars (key value : List Char) (s : List Char) : List Char :=
  match h : matchPlaceholder key s with
  | some r3 => value ++ substChars key value r3
  | none =>
    match s with
    | [] => []
    | c :: rest => c :: substChars key value rest
termination_by s.length
decreasing_by
  · exact matchPlaceholder_length h
  · simp

def substTemplate (key value s : String) : String :=
  ⟨substChars key.data value.data s.data⟩

/-- The `Object.entries(recipient).forEach` loop of the batch route: for
each field of the recipient record, in order, replace every
`\{\s*key\s*\}` occurrence by the field's value. -/
def substituteAll (recipient : List (String × String)) (tmpl : String) : String :=
  recipient.foldl (fun acc kv => substTemplate kv.1 kv.2 acc) tmpl

/-- A recipient row of the parsed CSV: an ordered record of
field-name/value pairs. -/
abbrev Recipient := List (String × String)

/-- One element of the `results` array built by the batch route:
`{recipient, status: 'success', messageId}` on success,
`{recipient, status: 'error', error: message}` on failure. -/
structure BatchEntry where
  recipient : Recipient
  status : String
  errorMsg : Option String
deriving DecidableEq, Repr

/-- The `for (const recipient of fileData.recipients)` loop of
`POST /api/send/batch` (CSV branch): for each recipient, substitute the
template variables into subject and body, call `sendEmail` (with its full
internal retry loop), and record a success or error entry; an individual
failure is caught and never aborts the loop.  Returns the `results` array
along with the final scheduler state and mailer index. -/
def sendBatch (today : Nat) (subject body : String) (accId : Option String)
    (mailer : Nat → MailOutcome) :
    List Recipient → SchedState → Nat → List BatchEntry × SchedState × Nat
  | [], st, idx => ([], st, idx)
  | r :: rest, st, idx =>
    let _processedSubject := substituteAll r subject
    let _processedBody := substituteAll r body
    let t := sendEmail today accId mailer st idx
    match t.result with
    | .ok _ =>
      let (es, st', idx') := sendBatch today subject body accId mailer rest t.state t.nextIdx
      (⟨r, "success", none⟩ :: es, st', idx')
    | .error e =>
      let (es, st', idx') := sendBatch today subject body accId mailer rest t.state t.nextIdx
      (⟨r, "error", some e.message⟩ :: es, st', idx')

/-- The aggregate counts of the batch route's response:
`total = results.length`,
`success = results.filter(r => r.status === 'success').length`,
`failed = results.filter(r => r.status === 'error').length`. -/
structure BatchOutcome where
  total : Nat
  succeeded : Nat
  failed : Nat
deriving DecidableEq, Repr

def batchOutcome (results : List BatchEntry) : BatchOutcome :=
  { total := results.length
    succeeded := (results.filter (fun r => r.status == "success")).length
    failed := (results.filter (fun r => r.status == "error")).length }

/-! ## Derived notions used by the statements -/

/-- The results of `n` consecutive `getNextAccount()` calls, threading the
module state from call to call. -/
def selectResults (today : Nat) : Nat → SchedState → List SelectResult
  | 0, _ => []
  | n + 1, st =>
    match getNextAccount today st with
    | (r, st') => r :: selectResults today n st'

/-- Every registered account has no daily limit and is not rate limited
(the hypothesis of the round-robin fairness property). -/
def allEligible (st : SchedState) : Prop :=
  ∀ a ∈ st.accounts, a.dailyLimit = none ∧ (st.usage a.id).isRateLimited = false

instance (st : SchedState) : Decidable (allEligible st) := by
  unfold allEligible
  infer_instance

/-! ## Helper lemmas: template substitution -/

theorem substChars_match {key value s r : List Char}
    (h : matchPlaceholder key s = some r) :
    substChars key value s = value ++ substChars key value r := by
  rw [substChars.eq_def]
  split
  · rename_i r' heq
    rw [heq] at h
    injection h with h
    rw [h]
  · rename_i heq
    rw [heq] at h
    cases h

theorem substChars_nil {key value : List Char} : substChars key value [] = [] := by
  rw [substChars.eq_def]
  rfl

theorem substChars_cons {key value : List Char} {c : Char} {rest : List Char}
    (h : matchPlaceholder key (c :: rest) = none) :
    substChars key value (c :: rest) = c :: substChars key value rest := by
  rw [substChars.eq_def]
  split
  · rename_i r' heq
    rw [heq] at h
    cases h
  · rfl

/-- Unconditional one-step unfolding of `substChars`, suitable for
symbolic evaluation on concrete templates. -/
theorem substChars_step (key value : List Char) (c : Char) (rest : List Char) :
    substChars key value (c :: rest) =
      match matchPlaceholder key (c :: rest) with
      | some r3 => value ++ substChars key value r3
      | none => c :: substChars key value rest := by
  cases h : matchPlaceholder key (c :: rest) with
  | some r3 => exact substChars_match h
  | none => exact substChars_cons h

/-! ## Helper lemmas: rollover and account selection -/

theorem rollRecord_lastReset (today : Nat) (r : UsageRecord) :
    (rollRecord today r).lastReset = today := by
  unfold rollRecord
  split <;> simp_all

theorem rollRecord_of_current {today : Nat} {r : UsageRecord}
    (h : r.lastReset = today) : rollRecord today r = r := by
  simp [rollRecord, h]

theorem rollRecord_idem (today : Nat) (r : UsageRecord) :
    rollRecord today (rollRecord today r) = rollRecord today r :=
  rollRecord_of_current (rollRecord_lastReset today r)

theorem checkAndResetLimits_idem (today : Nat) (u : String → UsageRecord) :
    checkAndResetLimits today (checkAndResetLimits today u) =
      checkAndResetLimits today u := by
  funext b
  exact rollRecord_idem today (u b)

theorem checkAndResetLimits_of_current {today : Nat} {u : String → UsageRecord}
    (h : ∀ b, (u b).lastReset = today) : checkAndResetLimits today u = u := by
  funext b
  exact rollRecord_of_current (h b)

theorem eligible_roll_of_flags {today : Nat} {a : Account} {r : UsageRecord}
    (hdl : a.dailyLimit = none) (hrl : r.isRateLimited = false) :
    eligible a (rollRecord today r) = true := by
  simp only [eligible, hdl, rollRecord]
  split <;> simp_all

theorem probeLoop_ok {accounts : List Account} {u : String → UsageRecord} :
    ∀ {fuel cursor a c}, probeLoop accounts u cursor fuel = (some a, c) →
      accounts[c]? = some a ∧ eligible a (u a.id) = true := by
  intro fuel
  induction fuel with
  | zero =>
    intro cursor a c h
    simp [probeLoop] at h
  | succ n ih =>
    intro cursor a c h
    simp only [probeLoop] at h
    split at h
    · rename_i x heq
      split at h
      · rename_i hel
        simp only [Prod.mk.injEq, Option.some.injEq] at h
        obtain ⟨rfl, rfl⟩ := h
        exact ⟨heq, hel⟩
      · exact ih h
    · simp at h

theorem probeLoop_exhausted {accounts : List Account} {u : String → UsageRecord}
    (hall : ∀ a ∈ accounts, eligible a (u a.id) = false) :
    ∀ (fuel cursor : Nat), (probeLoop accounts u cursor fuel).1 = none := by
  intro fuel
  induction fuel with
  | zero =>
    intro cursor
    simp [probeLoop]
  | succ n ih =>
    intro cursor
    simp only [probeLoop]
    split
    · rename_i x heq
      have hx : x ∈ accounts := List.getElem?_mem heq
      rw [hall x hx]
      simpa using ih _
    · rfl

theorem probeLoop_first_hit {accounts : List Account} {u : String → UsageRecord}
    {cursor fuel : Nat} {a : Account}
    (ha : accounts[(cursor + 1) % accounts.length]? = some a)
    (hel : eligible a (u a.id) = true) :
    probeLoop accounts u cursor (fuel + 1) =
      (some a, (cursor + 1) % accounts.length) := by
  simp only [probeLoop, ha, hel, if_true]

theorem probeLoop_first_hit' {accounts : List Account} {u : String → UsageRecord}
    {cursor fuel : Nat} {a : Account} (hfuel : fuel ≠ 0)
    (ha : accounts[(cursor + 1) % accounts.length]? = some a)
    (hel : eligible a (u a.id) = true) :
    probeLoop accounts u cursor fuel =
      (some a, (cursor + 1) % accounts.length) := by
  obtain ⟨m, rfl⟩ := Nat.exists_eq_succ_of_ne_zero hfuel
  exact probeLoop_first_hit ha hel

theorem getNextAccount_state (today : Nat) (st : SchedState) :
    ((getNextAccount today st).2).accounts = st.accounts ∧
    ((getNextAccount today st).2).usage = checkAndResetLimits today st.usage := by
  simp only [getNextAccount]
  split
  · exact ⟨rfl, rfl⟩
  · split <;> exact ⟨rfl, rfl⟩

theorem getNextAccount_ok {today : Nat} {st : SchedState} {a : Account}
    {st' : SchedState} (h : getNextAccount today st = (.ok a, st')) :
    eligible a (checkAndResetLimits today st.usage a.id) = true ∧
    st'.accounts = st.accounts ∧
    st'.usage = checkAndResetLimits today st.usage ∧
    st'.accounts[st'.cursor]? = some a := by
  simp only [getNextAccount] at h
  split at h
  · simp at h
  · split at h
    · rename_i x c heq
      simp only [Prod.mk.injEq, SelectResult.ok.injEq] at h
      obtain ⟨rfl, rfl⟩ := h
      obtain ⟨h1, h2⟩ := probeLoop_ok heq
      exact ⟨h2, rfl, rfl, h1⟩
    · simp at h

theorem getNextAccount_allEligible (today : Nat) {st : SchedState}
    (hne : st.accounts.length ≠ 0) (he : allEligible st) {a : Account}
    (ha : st.accounts[(st.cursor + 1) % st.accounts.length]? = some a) :
    getNextAccount today st =
      (.ok a, { st with usage := checkAndResetLimits today st.usage,
                        cursor := (st.cursor + 1) % st.accounts.length }) := by
  have hmem : a ∈ st.accounts := List.getElem?_mem ha
  obtain ⟨hdl, hrl⟩ := he a hmem
  have hel : eligible a (checkAndResetLimits today st.usage a.id) = true :=
    eligible_roll_of_flags hdl hrl
  simp only [getNextAccount, if_neg hne]
  rw [probeLoop_first_hit' hne ha hel]

theorem getNextAccount_exhausted {today : Nat} {st : SchedState}
    (hne : st.accounts.length ≠ 0)
    (hall : ∀ a ∈ st.accounts,
      eligible a (checkAndResetLimits today st.usage a.id) = false) :
    (getNextAccount today st).1 = .allExhausted := by
  have hp := probeLoop_exhausted hall st.accounts.length st.cursor
  simp only [getNextAccount, if_neg hne]
  cases hopl : probeLoop st.accounts (checkAndResetLimits today st.usage)
      st.cursor st.accounts.length with
  | mk o c =>
    rw [hopl] at hp
    simp only at hp
    subst hp
    rfl


theorem getNextAccount_not_ok {today : Nat} {st : SchedState} {a : Account}
    (hinel : eligible a (checkAndResetLimits today st.usage a.id) = false) :
    ∀ st', getNextAccount today st ≠ (.ok a, st') := by
  intro st' h
  rw [(getNextAccount_ok h).1] at hinel
  cases hinel

theorem allEligible_roll {today : Nat} {st : SchedState} {c : Nat}
    (he : allEligible st) :
    allEligible { st with usage := checkAndResetLimits today st.usage, cursor := c } := by
  intro a ha
  obtain ⟨h1, h2⟩ := he a ha
  refine ⟨h1, ?_⟩
  simp only [checkAndResetLimits, rollRecord]
  split <;> simp_all

theorem resolveAccount_ok_find {today : Nat} {aid : String} {st : SchedState}
    {a : Account} {st₁ : SchedState}
    (h : resolveAccount today (some aid) st = (.ok a, st₁)) :
    st.accounts.find? (fun x => x.id == aid) = some a ∧ st₁ = st := by
  simp only [resolveAccount] at h
  cases hf : st.accounts.find? (fun x => x.id == aid) with
  | some x =>
    rw [hf] at h
    simp only [Prod.mk.injEq, Except.ok.injEq] at h
    obtain ⟨rfl, rfl⟩ := h
    exact ⟨rfl, rfl⟩
  | none =>
    rw [hf] at h
    simp at h

theorem resolveAccount_ok_rotation {today : Nat} {st : SchedState}
    {a : Account} {st₁ : SchedState}
    (h : resolveAccount today none st = (.ok a, st₁)) :
    getNextAccount today st = (.ok a, st₁) := by
  simp only [resolveAccount] at h
  cases hg : getNextAccount today st with
  | mk r st2 =>
    rw [hg] at h
    cases r <;> simp_all

theorem markIfThrottled_accounts (e : CaughtError) (accId : Option String)
    (st : SchedState) : (markIfThrottled e accId st).accounts = st.accounts := by
  rcases e with ⟨sc, rc, msg⟩
  cases rc with
  | none => rfl
  | some c =>
    simp only [markIfThrottled]
    split
    · split
      · rfl
      · rfl
    · rfl

theorem markIfThrottled_cursor (e : CaughtError) (accId : Option String)
    (st : SchedState) : (markIfThrottled e accId st).cursor = st.cursor := by
  rcases e with ⟨sc, rc, msg⟩
  cases rc with
  | none => rfl
  | some c =>
    simp only [markIfThrottled]
    split
    · split
      · rfl
      · rfl
    · rfl

theorem markIfThrottled_no_code {sc : Option Nat} {msg : String}
    (accId : Option String) (st : SchedState) :
    markIfThrottled ⟨sc, none, msg⟩ accId st = st := rfl

theorem markIfThrottled_not_throttle {sc : Option Nat} {c : Nat} {msg : String}
    (hc : c ∉ throttleCodes) (accId : Option String) (st : SchedState) :
    markIfThrottled ⟨sc, some c, msg⟩ accId st = st := by
  simp only [markIfThrottled, if_neg hc]

/-- On a throttle-classified error after a successful resolution, the
`catch` block marks exactly the resolved account. -/
theorem markIfThrottled_marks {today : Nat} {accId : Option String}
    {st st₁ : SchedState} {a : Account} {sc : Option Nat} {c : Nat} {msg : String}
    (hres : resolveAccount today accId st = (.ok a, st₁)) (hc : c ∈ throttleCodes) :
    markIfThrottled ⟨sc, some c, msg⟩ accId st₁ =
      { st₁ with usage := markRateLimited a.id st₁.usage } := by
  cases accId with
  | some aid =>
    obtain ⟨hf, rfl⟩ := resolveAccount_ok_find hres
    simp only [markIfThrottled, if_pos hc, hf]
  | none =>
    have hrot := resolveAccount_ok_rotation hres
    have hcur := (getNextAccount_ok hrot).2.2.2
    simp only [markIfThrottled, if_pos hc, hcur]


theorem resolveAccount_accounts (today : Nat) (accId : Option String)
    (st : SchedState) :
    ((resolveAccount today accId st).2).accounts = st.accounts := by
  cases accId with
  | some aid =>
    simp only [resolveAccount]
    cases st.accounts.find? (fun x => x.id == aid) <;> rfl
  | none =>
    simp only [resolveAccount]
    cases hg : getNextAccount today st with
    | mk r st2 =>
      have hst := (getNextAccount_state today st).1
      rw [hg] at hst
      cases r <;> simpa using hst

theorem attempt_accounts (today : Nat) (accId : Option String)
    (mailer : Nat → MailOutcome) (st : SchedState) (idx : Nat) :
    ((attempt today accId mailer st idx).2.1).accounts = st.accounts := by
  simp only [attempt]
  cases hr : resolveAccount today accId st with
  | mk res st₁ =>
    have hacc := resolveAccount_accounts today accId st
    rw [hr] at hacc
    cases res with
    | error e => simpa using hacc
    | ok a => cases mailer idx <;> simpa using hacc

theorem attemptStep_accounts (today : Nat) (accId : Option String)
    (mailer : Nat → MailOutcome) (st : SchedState) (idx : Nat) :
    ((attemptStep today accId mailer st idx).2.1).accounts = st.accounts := by
  simp only [attemptStep]
  cases ha : attempt today accId mailer st idx with
  | mk res rest =>
    obtain ⟨st', idx'⟩ := rest
    have hacc := attempt_accounts today accId mailer st idx
    rw [ha] at hacc
    cases res with
    | ok r => simpa using hacc
    | error e =>
      simp only
      rw [markIfThrottled_accounts]
      simpa using hacc

theorem attemptStep_pinned_failure (today : Nat) {aid : String}
    {mailer : Nat → MailOutcome} {st : SchedState} {idx : Nat} {a : Account}
    {c : Option Nat} {m : String}
    (hfind : st.accounts.find? (fun x => x.id == aid) = some a)
    (hm : mailer idx = .failure c m) :
    attemptStep today (some aid) mailer st idx =
      (.error ⟨none, c, m⟩, markIfThrottled ⟨none, c, m⟩ (some aid) st, idx + 1) := by
  simp only [attemptStep, attempt, resolveAccount, hfind, hm]

theorem attemptStep_pinned_success (today : Nat) {aid : String}
    {mailer : Nat → MailOutcome} {st : SchedState} {idx : Nat} {a : Account}
    (hfind : st.accounts.find? (fun x => x.id == aid) = some a)
    (hm : mailer idx = .success) :
    attemptStep today (some aid) mailer st idx =
      (.ok ⟨a.id⟩, { st with usage := recordSent a.id st.usage }, idx + 1) := by
  simp only [attemptStep, attempt, resolveAccount, hfind, hm]

theorem attemptStep_noAccounts {today : Nat} {mailer : Nat → MailOutcome}
    {st : SchedState} {idx : Nat} (hacc : st.accounts = []) :
    attemptStep today none mailer st idx =
      (.error ⟨some 503, none, noAccountsMsg⟩,
        { st with usage := checkAndResetLimits today st.usage }, idx) := by
  have hlen : st.accounts.length = 0 := by rw [hacc]; rfl
  simp only [attemptStep, attempt, resolveAccount, getNextAccount, if_pos hlen,
    markIfThrottled]

theorem attemptStep_notFound {today : Nat} {aid : String}
    {mailer : Nat → MailOutcome} {st : SchedState} {idx : Nat}
    (hfind : st.accounts.find? (fun x => x.id == aid) = none) :
    attemptStep today (some aid) mailer st idx =
      (.error ⟨some 404, none, notFoundMsg aid⟩, st, idx) := by
  simp only [attemptStep, attempt, resolveAccount, hfind, markIfThrottled]

theorem getNextAccount_exhausted_form {today : Nat} {st : SchedState}
    (hne : st.accounts.length ≠ 0)
    (hall : ∀ a ∈ st.accounts,
      eligible a (checkAndResetLimits today st.usage a.id) = false) :
    ∃ c, getNextAccount today st =
      (.allExhausted,
        { st with usage := checkAndResetLimits today st.usage, cursor := c }) := by
  have h1 := getNextAccount_exhausted hne hall
  have hstate := getNextAccount_state today st
  cases hg : getNextAccount today st with
  | mk r st2 =>
    rw [hg] at h1 hstate
    simp only at h1 hstate
    subst h1
    obtain ⟨ha, hu⟩ := hstate
    refine ⟨st2.cursor, ?_⟩
    cases st2 with
    | mk a2 u2 c2 =>
      simp only at ha hu
      subst ha
      subst hu
      rfl

theorem attemptStep_exhausted {today : Nat} (mailer : Nat → MailOutcome)
    {st : SchedState} (idx : Nat) (hne : st.accounts.length ≠ 0)
    (hall : ∀ a ∈ st.accounts,
      eligible a (checkAndResetLimits today st.usage a.id) = false) :
    ∃ c, attemptStep today none mailer st idx =
      (.error ⟨some 429, none, allExhaustedMsg⟩,
        { st with usage := checkAndResetLimits today st.usage, cursor := c }, idx) := by
  obtain ⟨c, hg⟩ := getNextAccount_exhausted_form hne hall
  refine ⟨c, ?_⟩
  simp only [attemptStep, attempt, resolveAccount, hg, markIfThrottled]


theorem recordSent_lastReset (aid : String) (u : String → UsageRecord) (x : String) :
    (recordSent aid u x).lastReset = (u x).lastReset := by
  simp only [recordSent]
  split <;> rfl

theorem recordSent_flag (aid : String) (u : String → UsageRecord) (x : String) :
    (recordSent aid u x).isRateLimited = (u x).isRateLimited := by
  simp only [recordSent]
  split <;> rfl

theorem markRateLimited_lastReset (aid : String) (u : String → UsageRecord)
    (x : String) : (markRateLimited aid u x).lastReset = (u x).lastReset := by
  simp only [markRateLimited]
  split <;> rfl

theorem markRateLimited_flag_mono {aid : String} {u : String → UsageRecord}
    {x : String} (h : (u x).isRateLimited = true) :
    (markRateLimited aid u x).isRateLimited = true := by
  simp only [markRateLimited]
  split <;> simp [h]

theorem markIfThrottled_usage_cases (e : CaughtError) (accId : Option String)
    (st : SchedState) :
    (markIfThrottled e accId st).usage = st.usage ∨
    ∃ aid, (markIfThrottled e accId st).usage = markRateLimited aid st.usage := by
  rcases e with ⟨sc, rc, msg⟩
  cases rc with
  | none => exact Or.inl rfl
  | some c =>
    simp only [markIfThrottled]
    split
    · split
      · rename_i a heq
        exact Or.inr ⟨a.id, rfl⟩
      · exact Or.inl rfl
    · exact Or.inl rfl

theorem resolveAccount_state_current {today : Nat} {accId : Option String}
    {st : SchedState} {res : Except CaughtError Account} {st₁ : SchedState}
    (hcur : ∀ x, (st.usage x).lastReset = today)
    (h : resolveAccount today accId st = (res, st₁)) :
    st₁.usage = st.usage ∧ st₁.accounts = st.accounts := by
  have hacc := resolveAccount_accounts today accId st
  rw [h] at hacc
  refine ⟨?_, hacc⟩
  cases accId with
  | some aid =>
    simp only [resolveAccount] at h
    cases hf : st.accounts.find? (fun x => x.id == aid) with
    | some x =>
      rw [hf] at h
      simp only [Prod.mk.injEq] at h
      rw [← h.2]
    | none =>
      rw [hf] at h
      simp only [Prod.mk.injEq] at h
      rw [← h.2]
  | none =>
    simp only [resolveAccount] at h
    cases hg : getNextAccount today st with
    | mk r st2 =>
      have hu := (getNextAccount_state today st).2
      rw [hg] at hu
      simp only at hu
      rw [checkAndResetLimits_of_current hcur] at hu
      rw [hg] at h
      cases r <;> simp only [Prod.mk.injEq] at h <;> rw [← h.2] <;> exact hu


/-- The per-attempt usage-map effect of one `try`/`catch` round with a
successfully resolved account `a` on a rollover-free day: success
increments `a`'s counter, a throttle-classified failure marks `a`, any
other failure leaves the map untouched. -/
theorem attemptStep_effect {today : Nat} {accId : Option String}
    {mailer : Nat → MailOutcome} {st : SchedState} {idx : Nat} {a : Account}
    {st₁ : SchedState}
    (hcur : ∀ x, (st.usage x).lastReset = today)
    (hres : resolveAccount today accId st = (.ok a, st₁)) :
    (mailer idx = .success →
      ((attemptStep today accId mailer st idx).2.1).usage =
        recordSent a.id st.usage) ∧
    (∀ c m, mailer idx = .failure (some c) m → c ∈ throttleCodes →
      ((attemptStep today accId mailer st idx).2.1).usage =
        markRateLimited a.id st.usage) ∧
    (∀ c m, mailer idx = .failure c m →
      (∀ code, c = some code → code ∉ throttleCodes) →
      ((attemptStep today accId mailer st idx).2.1).usage = st.usage) := by
  have hu1 : st₁.usage = st.usage := (resolveAccount_state_current hcur hres).1
  refine ⟨?_, ?_, ?_⟩
  · intro hm
    simp only [attemptStep, attempt, hres, hm, hu1]
  · intro c m hm hc
    simp only [attemptStep, attempt, hres, hm]
    rw [markIfThrottled_marks hres hc]
    simp only [hu1]
  · intro c m hm hc
    simp only [attemptStep, attempt, hres, hm]
    cases c with
    | none => rw [markIfThrottled_no_code]; exact hu1
    | some code => rw [markIfThrottled_not_throttle (hc code rfl)]; exact hu1

/-- One `try`/`catch` round keeps every record stamped with today and never
clears a rate-limit flag (on a rollover-free day). -/
theorem attemptStep_preserves {today : Nat} (accId : Option String)
    (mailer : Nat → MailOutcome) {st : SchedState} (idx : Nat)
    (hcur : ∀ x, (st.usage x).lastReset = today) :
    (∀ x, (((attemptStep today accId mailer st idx).2.1).usage x).lastReset =
      today) ∧
    (∀ b, (st.usage b).isRateLimited = true →
      (((attemptStep today accId mailer st idx).2.1).usage b).isRateLimited =
        true) := by
  cases hr : resolveAccount today accId st with
  | mk res st₁ =>
    have hu1 : st₁.usage = st.usage := (resolveAccount_state_current hcur hr).1
    cases res with
    | ok a =>
      cases hm : mailer idx with
      | success =>
        simp only [attemptStep, attempt, hr, hm, hu1]
        constructor
        · intro x
          rw [recordSent_lastReset]
          exact hcur x
        · intro b hb
          rw [recordSent_flag]
          exact hb
      | failure c m =>
        simp only [attemptStep, attempt, hr, hm]
        rcases markIfThrottled_usage_cases ⟨none, c, m⟩ accId st₁ with hcase | ⟨aid, hcase⟩
        · rw [hcase, hu1]
          exact ⟨hcur, fun b hb => hb⟩
        · rw [hcase, hu1]
          constructor
          · intro x
            rw [markRateLimited_lastReset]
            exact hcur x
          · intro b hb
            exact markRateLimited_flag_mono hb
    | error e =>
      simp only [attemptStep, attempt, hr]
      rcases markIfThrottled_usage_cases e accId st₁ with hcase | ⟨aid, hcase⟩
      · rw [hcase, hu1]
        exact ⟨hcur, fun b hb => hb⟩
      · rw [hcase, hu1]
        constructor
        · intro x
          rw [markRateLimited_lastReset]
          exact hcur x
        · intro b hb
          exact markRateLimited_flag_mono hb

/-- Across the whole retry loop (on a rollover-free day), records stay
stamped with today and a set rate-limit flag is never cleared. -/
theorem sendLoop_preserves {today : Nat} {accId : Option String}
    {mailer : Nat → MailOutcome} :
    ∀ (rl : Nat) (st : SchedState) (idx : Nat),
      (∀ x, (st.usage x).lastReset = today) →
      (∀ x, (((sendLoop today accId mailer st idx rl).state).usage x).lastReset =
        today) ∧
      (∀ b, (st.usage b).isRateLimited = true →
        (((sendLoop today accId mailer st idx rl).state).usage b).isRateLimited =
          true) := by
  intro rl
  induction rl with
  | zero =>
    intro st idx hcur
    obtain ⟨h1, h2⟩ := attemptStep_preserves accId mailer idx hcur
    simp only [sendLoop]
    cases hstep : attemptStep today accId mailer st idx with
    | mk res rest =>
      obtain ⟨st', idx'⟩ := rest
      rw [hstep] at h1 h2
      cases res <;> exact ⟨h1, h2⟩
  | succ n ih =>
    intro st idx hcur
    obtain ⟨h1, h2⟩ := attemptStep_preserves accId mailer idx hcur
    simp only [sendLoop]
    cases hstep : attemptStep today accId mailer st idx with
    | mk res rest =>
      obtain ⟨st', idx'⟩ := rest
      rw [hstep] at h1 h2
      cases res with
      | ok r => exact ⟨h1, h2⟩
      | error e =>
        obtain ⟨ih1, ih2⟩ := ih st' idx' h1
        exact ⟨ih1, fun b hb => ih2 b (h2 b hb)⟩


/-- With no accounts configured, every attempt of the retry loop throws the
selection failure inside `try`, so the loop burns all its backoff delays and
ends with the wrapped terminal error. -/
theorem sendLoop_noAccounts (today : Nat) (mailer : Nat → MailOutcome) :
    ∀ (rl : Nat) (st : SchedState) (idx : Nat), st.accounts = [] →
      sendLoop today none mailer st idx rl =
        ⟨.error ⟨503, failedAfterMsg noAccountsMsg⟩,
         { st with usage := checkAndResetLimits today st.usage }, idx,
         backoffDelays rl⟩ := by
  intro rl
  induction rl with
  | zero =>
    intro st idx hacc
    simp only [sendLoop, attemptStep_noAccounts hacc]
    rfl
  | succ n ih =>
    intro st idx hacc
    simp only [sendLoop, attemptStep_noAccounts hacc]
    rw [ih { st with usage := checkAndResetLimits today st.usage } idx hacc]
    simp only [checkAndResetLimits_idem]
    rfl

/-- With an explicit account id that matches no account, every attempt
throws the 404 lookup failure inside `try`; the loop burns all its backoff
delays, leaves the state untouched, and ends with the wrapped terminal
error. -/
theorem sendLoop_notFound (today : Nat) {aid : String}
    (mailer : Nat → MailOutcome) :
    ∀ (rl : Nat) (st : SchedState) (idx : Nat),
      st.accounts.find? (fun x => x.id == aid) = none →
      sendLoop today (some aid) mailer st idx rl =
        ⟨.error ⟨503, failedAfterMsg (notFoundMsg aid)⟩, st, idx,
         backoffDelays rl⟩ := by
  intro rl
  induction rl with
  | zero =>
    intro st idx hfind
    simp only [sendLoop, attemptStep_notFound hfind]
    rfl
  | succ n ih =>
    intro st idx hfind
    simp only [sendLoop, attemptStep_notFound hfind]
    rw [ih st idx hfind]
    rfl

/-- With a nonempty account list in which no account is eligible even after
rollover, every attempt throws the 429 exhaustion failure inside `try`; the
loop burns all its backoff delays and ends with the wrapped terminal error,
without invoking the transport. -/
theorem sendLoop_exhausted (today : Nat) (mailer : Nat → MailOutcome) :
    ∀ (rl : Nat) (st : SchedState) (idx : Nat), st.accounts ≠ [] →
      (∀ a ∈ st.accounts,
        eligible a (checkAndResetLimits today st.usage a.id) = false) →
      (sendLoop today none mailer st idx rl).result =
        .error ⟨503, failedAfterMsg allExhaustedMsg⟩ ∧
      (sendLoop today none mailer st idx rl).nextIdx = idx ∧
      (sendLoop today none mailer st idx rl).delays = backoffDelays rl := by
  intro rl
  induction rl with
  | zero =>
    intro st idx hne hall
    obtain ⟨c, hstep⟩ := attemptStep_exhausted mailer idx
      (fun h => hne (List.length_eq_zero.mp h)) hall
    simp [sendLoop, hstep, backoffDelays]
  | succ n ih =>
    intro st idx hne hall
    obtain ⟨c, hstep⟩ := attemptStep_exhausted mailer idx
      (fun h => hne (List.length_eq_zero.mp h)) hall
    have hall2 : ∀ a ∈ (SchedState.mk st.accounts
        (checkAndResetLimits today st.usage) c).accounts,
        eligible a (checkAndResetLimits today (SchedState.mk st.accounts
          (checkAndResetLimits today st.usage) c).usage a.id) = false := by
      intro a ha
      simp only [checkAndResetLimits_idem]
      exact hall a ha
    obtain ⟨ih1, ih2, ih3⟩ :=
      ih (SchedState.mk st.accounts (checkAndResetLimits today st.usage) c)
        idx hne hall2
    simp only [sendLoop, hstep]
    exact ⟨ih1, ih2, by simp only [ih3]; rfl⟩


theorem sendLoop_error_step {today : Nat} {accId : Option String}
    {mailer : Nat → MailOutcome} {st : SchedState} {idx rl : Nat}
    {e : CaughtError} {st' : SchedState} {idx' : Nat}
    (hstep : attemptStep today accId mailer st idx = (.error e, st', idx')) :
    sendLoop today accId mailer st idx (rl + 1) =
      { sendLoop today accId mailer st' idx' rl with
        delays := RETRY_DELAY * 2 ^ (MAX_RETRIES - (rl + 1)) ::
          (sendLoop today accId mailer st' idx' rl).delays } := by
  simp only [sendLoop, hstep]

theorem sendLoop_error_last {today : Nat} {accId : Option String}
    {mailer : Nat → MailOutcome} {st : SchedState} {idx : Nat}
    {e : CaughtError} {st' : SchedState} {idx' : Nat}
    (hstep : attemptStep today accId mailer st idx = (.error e, st', idx')) :
    sendLoop today accId mailer st idx 0 =
      ⟨.error ⟨503, failedAfterMsg e.message⟩, st', idx', []⟩ := by
  simp only [sendLoop, hstep]

theorem sendLoop_ok_step {today : Nat} {accId : Option String}
    {mailer : Nat → MailOutcome} {st : SchedState} {idx rl : Nat}
    {r : SendOk} {st' : SchedState} {idx' : Nat}
    (hstep : attemptStep today accId mailer st idx = (.ok r, st', idx')) :
    sendLoop today accId mailer st idx rl = ⟨.ok r, st', idx', []⟩ := by
  cases rl <;> simp only [sendLoop, hstep]


/-- Pinned-account retry run: transport failures on every attempt while
retries remain, then success on the final attempt.  Every attempt
re-resolves the same pinned account, one mailer invocation per attempt,
and the backoff delays double from `RETRY_DELAY` upward. -/
theorem sendLoop_pinned_fail_then_succeed (today : Nat) {aid : String}
    {a : Account} {mailer : Nat → MailOutcome} :
    ∀ (rl : Nat) (st : SchedState) (idx : Nat),
      st.accounts.find? (fun x => x.id == aid) = some a →
      (∀ j, j < rl → ∃ c m, mailer (idx + j) = .failure c m) →
      mailer (idx + rl) = .success →
      (sendLoop today (some aid) mailer st idx rl).result = .ok ⟨a.id⟩ ∧
      (sendLoop today (some aid) mailer st idx rl).nextIdx = idx + rl + 1 ∧
      (sendLoop today (some aid) mailer st idx rl).delays = backoffDelays rl := by
  intro rl
  induction rl with
  | zero =>
    intro st idx hfind hfail hsucc
    have h0 : mailer idx = .success := by simpa using hsucc
    have e := attemptStep_pinned_success today hfind h0
    rw [sendLoop_ok_step e]
    exact ⟨rfl, rfl, rfl⟩
  | succ n ih =>
    intro st idx hfind hfail hsucc
    obtain ⟨c, m, h0⟩ := hfail 0 (Nat.succ_pos n)
    have h0' : mailer idx = .failure c m := by simpa using h0
    have e1 := attemptStep_pinned_failure today hfind h0'
    rw [sendLoop_error_step e1]
    have hfind1 : (markIfThrottled ⟨none, c, m⟩ (some aid) st).accounts.find?
        (fun x => x.id == aid) = some a := by
      rw [markIfThrottled_accounts]
      exact hfind
    have hfail1 : ∀ j, j < n → ∃ c' m', mailer (idx + 1 + j) = .failure c' m' := by
      intro j hj
      obtain ⟨c', m', hcm⟩ := hfail (j + 1) (by omega)
      exact ⟨c', m', by rw [show idx + 1 + j = idx + (j + 1) by omega]; exact hcm⟩
    have hsucc1 : mailer (idx + 1 + n) = .success := by
      rw [show idx + 1 + n = idx + (n + 1) by omega]
      exact hsucc
    obtain ⟨ih1, ih2, ih3⟩ := ih (markIfThrottled ⟨none, c, m⟩ (some aid) st)
      (idx + 1) hfind1 hfail1 hsucc1
    refine ⟨ih1, ?_, ?_⟩
    · simp only [ih2]
      omega
    · simp only [ih3]
      rfl

/-- Pinned-account retry run in which every attempt fails: the loop ends
with the terminal wrapped error carrying the last failure's message. -/
theorem sendLoop_pinned_all_fail (today : Nat) {aid : String}
    {a : Account} {mailer : Nat → MailOutcome} :
    ∀ (rl : Nat) (st : SchedState) (idx : Nat),
      st.accounts.find? (fun x => x.id == aid) = some a →
      (∀ j, j < rl → ∃ c m, mailer (idx + j) = .failure c m) →
      ∀ cl ml, mailer (idx + rl) = .failure cl ml →
      (sendLoop today (some aid) mailer st idx rl).result =
        .error ⟨503, failedAfterMsg ml⟩ ∧
      (sendLoop today (some aid) mailer st idx rl).nextIdx = idx + rl + 1 ∧
      (sendLoop today (some aid) mailer st idx rl).delays = backoffDelays rl := by
  intro rl
  induction rl with
  | zero =>
    intro st idx hfind hfail cl ml hlast
    have h0 : mailer idx = .failure cl ml := by simpa using hlast
    have e := attemptStep_pinned_failure today hfind h0
    rw [sendLoop_error_last e]
    exact ⟨rfl, rfl, rfl⟩
  | succ n ih =>
    intro st idx hfind hfail cl ml hlast
    obtain ⟨c, m, h0⟩ := hfail 0 (Nat.succ_pos n)
    have h0' : mailer idx = .failure c m := by simpa using h0
    have e1 := attemptStep_pinned_failure today hfind h0'
    rw [sendLoop_error_step e1]
    have hfind1 : (markIfThrottled ⟨none, c, m⟩ (some aid) st).accounts.find?
        (fun x => x.id == aid) = some a := by
      rw [markIfThrottled_accounts]
      exact hfind
    have hfail1 : ∀ j, j < n → ∃ c' m', mailer (idx + 1 + j) = .failure c' m' := by
      intro j hj
      obtain ⟨c', m', hcm⟩ := hfail (j + 1) (by omega)
      exact ⟨c', m', by rw [show idx + 1 + j = idx + (j + 1) by omega]; exact hcm⟩
    have hlast1 : mailer (idx + 1 + n) = .failure cl ml := by
      rw [show idx + 1 + n = idx + (n + 1) by omega]
      exact hlast
    obtain ⟨ih1, ih2, ih3⟩ := ih (markIfThrottled ⟨none, c, m⟩ (some aid) st)
      (idx + 1) hfind1 hfail1 cl ml hlast1
    refine ⟨ih1, ?_, ?_⟩
    · simp only [ih2]
      omega
    · simp only [ih3]
      rfl


theorem count_status {l : List BatchEntry}
    (h : ∀ e ∈ l, e.status = "success" ∨ e.status = "error") :
    (l.filter (fun r => r.status == "success")).length +
      (l.filter (fun r => r.status == "error")).length = l.length := by
  induction l with
  | nil => simp
  | cons e rest ih =>
    have he := h e (by simp)
    have hrest : ∀ x ∈ rest, x.status = "success" ∨ x.status = "error" :=
      fun x hx => h x (by simp [hx])
    have t1 : ("success" == "success") = true := by decide
    have t2 : ("error" == "success") = false := by decide
    have t3 : ("success" == "error") = false := by decide
    have t4 : ("error" == "error") = true := by decide
    have hih := ih hrest
    rcases he with h1 | h1 <;>
      simp [List.filter_cons, h1, t1, t2, t3, t4] <;>
      omega

/-- Each recipient of a batch produces exactly one result entry, in order,
and every entry is either a success entry or an error entry carrying the
failure message. -/
theorem sendBatch_entries (today : Nat) (subject body : String)
    (accId : Option String) (mailer : Nat → MailOutcome) :
    ∀ (recipients : List Recipient) (st : SchedState) (idx : Nat),
      ((sendBatch today subject body accId mailer recipients st idx).1.map
        BatchEntry.recipient = recipients) ∧
      (∀ e ∈ (sendBatch today subject body accId mailer recipients st idx).1,
        (e.status = "success" ∧ e.errorMsg = none) ∨
        (e.status = "error" ∧ e.errorMsg ≠ none)) := by
  intro recipients
  induction recipients with
  | nil =>
    intro st idx
    simp [sendBatch]
  | cons r rest ih =>
    intro st idx
    simp only [sendBatch]
    cases hres : (sendEmail today accId mailer st idx).result with
    | ok v =>
      obtain ⟨ih1, ih2⟩ := ih (sendEmail today accId mailer st idx).state
        (sendEmail today accId mailer st idx).nextIdx
      constructor
      · simp only [List.map_cons, ih1]
      · intro e he
        simp only [List.mem_cons] at he
        rcases he with rfl | he
        · exact Or.inl ⟨rfl, rfl⟩
        · exact ih2 e he
    | error err =>
      obtain ⟨ih1, ih2⟩ := ih (sendEmail today accId mailer st idx).state
        (sendEmail today accId mailer st idx).nextIdx
      constructor
      · simp only [List.map_cons, ih1]
      · intro e he
        simp only [List.mem_cons] at he
        rcases he with rfl | he
        · exact Or.inr ⟨rfl, by simp⟩
        · exact ih2 e he


/-- Under all-eligible accounts, the i-th of a run of `getNextAccount()`
calls returns the account one position past the cursor, advanced i times
(round-robin). -/
theorem selectResults_allEligible {today : Nat} :
    ∀ (k : Nat) (st : SchedState), st.accounts.length ≠ 0 → allEligible st →
      ∀ i a, i < k →
        st.accounts[(st.cursor + i + 1) % st.accounts.length]? = some a →
        (selectResults today k st)[i]? = some (.ok a) := by
  intro k
  induction k with
  | zero =>
    intro st hne he i a hi ha
    omega
  | succ n ih =>
    intro st hne he i a hi ha
    have hidx : (st.cursor + 1) % st.accounts.length < st.accounts.length :=
      Nat.mod_lt _ (Nat.pos_of_ne_zero hne)
    cases hA : st.accounts[(st.cursor + 1) % st.accounts.length]? with
    | none =>
      rw [List.getElem?_eq_none_iff] at hA
      omega
    | some a0 =>
      have hchar := getNextAccount_allEligible today hne he hA
      have hsel : selectResults today (n + 1) st =
          .ok a0 :: selectResults today n
            { st with usage := checkAndResetLimits today st.usage,
                      cursor := (st.cursor + 1) % st.accounts.length } := by
        simp only [selectResults, hchar]
      rw [hsel]
      cases i with
      | zero =>
        simp only [List.getElem?_cons_zero, Option.some.injEq]
        have : st.accounts[(st.cursor + 0 + 1) % st.accounts.length]? = some a0 := by
          simpa using hA
        rw [this] at ha
        injection ha with ha
        rw [ha]
      | succ j =>
        simp only [List.getElem?_cons_succ]
        refine ih ⟨st.accounts, checkAndResetLimits today st.usage,
            (st.cursor + 1) % st.accounts.length⟩
          hne (allEligible_roll he) j a (by omega) ?_
        show st.accounts[((st.cursor + 1) % st.accounts.length + j + 1) %
          st.accounts.length]? = some a
        have harith : ((st.cursor + 1) % st.accounts.length + j + 1) %
            st.accounts.length = (st.cursor + (j + 1) + 1) % st.accounts.length := by
          conv_lhs => rw [Nat.add_assoc]
          rw [Nat.mod_add_mod]
          congr 1
          omega
        rw [harith]
        exact ha


/-- C9: calling `checkAndResetLimits` twice with the same calendar day is
idempotent (the second call leaves every record's `sentToday`,
`isRateLimited` and `lastReset` unchanged); when a record's `lastReset`
differs from the current day, the call resets `sentToday` to 0, clears
`isRateLimited` and stamps `lastReset` with the current day; a record
already stamped with the current day is untouched. -/
theorem C9_rollover (today : Nat) :
    (∀ u : String → UsageRecord,
      checkAndResetLimits today (checkAndResetLimits today u) =
        checkAndResetLimits today u) ∧
    (∀ (u : String → UsageRecord) (b : String), (u b).lastReset ≠ today →
      checkAndResetLimits today u b =
        { sentToday := 0, lastReset := today, isRateLimited := false }) ∧
    (∀ (u : String → UsageRecord) (b : String), (u b).lastReset = today →
      checkAndResetLimits today u b = u b) := by
  refine ⟨checkAndResetLimits_idem today, ?_, ?_⟩
  · intro u b hb
    simp [checkAndResetLimits, rollRecord, hb]
  · intro u b hb
    exact rollRecord_of_current hb

theorem C9_witness :
    checkAndResetLimits 1 (fun _ => ⟨5, 0, true⟩) "acct" =
      { sentToday := 0, lastReset := 1, isRateLimited := false } :=
  (C9_rollover 1).2.1 (fun _ => ⟨5, 0, true⟩) "acct" (by decide)

/-- C5: `getNextAccount` only ever returns an account that passes the
eligibility test on its (rolled-over) usage record; on a day whose records
are current, an account that is rate limited or at/over its daily limit
(in particular after `dailyLimit` successful sends) is never returned; and
the eligibility test is exactly: not rate-limited AND (`dailyLimit`
undefined OR `sentToday < dailyLimit`). -/
theorem C5_eligibility (today : Nat) (st : SchedState) :
    (∀ (a : Account) (st' : SchedState), getNextAccount today st = (.ok a, st') →
      eligible a (checkAndResetLimits today st.usage a.id) = true) ∧
    (∀ a : Account, (st.usage a.id).lastReset = today →
      ((st.usage a.id).isRateLimited = true ∨
        (∃ d, a.dailyLimit = some d ∧ d ≤ (st.usage a.id).sentToday)) →
      ∀ st', getNextAccount today st ≠ (.ok a, st')) ∧
    (∀ (a : Account) (r : UsageRecord),
      eligible a r = true ↔
        (r.isRateLimited = false ∧
          ∀ d, a.dailyLimit = some d → r.sentToday < d)) := by
  refine ⟨?_, ?_, ?_⟩
  · intro a st' h
    exact (getNextAccount_ok h).1
  · intro a hcurr hbad
    apply getNextAccount_not_ok
    have hroll : checkAndResetLimits today st.usage a.id = st.usage a.id :=
      rollRecord_of_current hcurr
    rw [hroll]
    rcases hbad with hrl | ⟨d, hd, hge⟩
    · simp [eligible, hrl]
    · simp [eligible, hd]
      omega
  · intro a r
    cases hdl : a.dailyLimit with
    | none => simp [eligible, hdl]
    | some d => simp [eligible, hdl]

theorem C5_witness :
    getNextAccount 0 ⟨[⟨"a1", some 5⟩], fun _ => ⟨5, 0, false⟩, 0⟩ ≠
      (.ok ⟨"a1", some 5⟩, ⟨[⟨"a1", some 5⟩], fun _ => ⟨5, 0, false⟩, 0⟩) :=
  (C5_eligibility 0 ⟨[⟨"a1", some 5⟩], fun _ => ⟨5, 0, false⟩, 0⟩).2.1
    ⟨"a1", some 5⟩ rfl (Or.inr ⟨5, rfl, le_refl 5⟩)
    ⟨[⟨"a1", some 5⟩], fun _ => ⟨5, 0, false⟩, 0⟩

/-- C10: the shared rotation cursor is advanced before it is read: starting
from the freshly loaded state (cursor 0) with at least two accounts, all
eligible, the first `getNextAccount` call returns the account at index 1 of
the configured list, not index 0; and (with distinct account ids) two
consecutive calls never return the same account. -/
theorem C10_cursor_preincrement (today : Nat) :
    (∀ (accs : List Account), 2 ≤ accs.length →
      allEligible (initState accs today) →
      ∀ a, accs[1]? = some a →
        (getNextAccount today (initState accs today)).1 = .ok a) ∧
    (∀ st : SchedState, 2 ≤ st.accounts.length → allEligible st →
      (st.accounts.map Account.id).Nodup →
      ∀ a₁ a₂,
        (getNextAccount today st).1 = .ok a₁ →
        (getNextAccount today ((getNextAccount today st).2)).1 = .ok a₂ →
        a₁ ≠ a₂) := by
  constructor
  · intro accs h2 he a ha
    have hne : (initState accs today).accounts.length ≠ 0 := by
      simp only [initState]
      omega
    have ha' : (initState accs today).accounts[((initState accs today).cursor + 1) %
        (initState accs today).accounts.length]? = some a := by
      show accs[(0 + 1) % accs.length]? = some a
      rw [show (0 + 1) % accs.length = 1 from Nat.mod_eq_of_lt (by omega)]
      exact ha
    rw [getNextAccount_allEligible today hne he ha']
  · intro st h2 he hnodup a₁ a₂ hc1 hc2
    have hne : st.accounts.length ≠ 0 := by omega
    have hpos : 0 < st.accounts.length := by omega
    have hidx1 : (st.cursor + 1) % st.accounts.length < st.accounts.length :=
      Nat.mod_lt _ hpos
    cases hA1 : st.accounts[(st.cursor + 1) % st.accounts.length]? with
    | none =>
      rw [List.getElem?_eq_none_iff] at hA1
      omega
    | some x1 =>
      have hchar1 := getNextAccount_allEligible today hne he hA1
      rw [hchar1] at hc1 hc2
      simp only at hc1 hc2
      injection hc1 with hc1
      subst hc1
      have he2 : allEligible ⟨st.accounts, checkAndResetLimits today st.usage,
          (st.cursor + 1) % st.accounts.length⟩ := allEligible_roll he
      have hidx2 : ((st.cursor + 1) % st.accounts.length + 1) %
          st.accounts.length < st.accounts.length := Nat.mod_lt _ hpos
      cases hA2 : st.accounts[((st.cursor + 1) % st.accounts.length + 1) %
          st.accounts.length]? with
      | none =>
        rw [List.getElem?_eq_none_iff] at hA2
        omega
      | some x2 =>
        have hchar2 := @getNextAccount_allEligible today
          ⟨st.accounts, checkAndResetLimits today st.usage,
            (st.cursor + 1) % st.accounts.length⟩ hne he2 x2 hA2
        rw [hchar2] at hc2
        simp only at hc2
        injection hc2 with hc2
        subst hc2
        intro heq
        obtain ⟨hb1, hg1⟩ := List.getElem?_eq_some_iff.mp hA1
        obtain ⟨hb2, hg2⟩ := List.getElem?_eq_some_iff.mp hA2
        have hnd : st.accounts.Nodup := List.Nodup.of_map Account.id hnodup
        have hids := hnd.getElem_inj_iff.mp (hg1.trans (heq.trans hg2.symm))
        set i1 := (st.cursor + 1) % st.accounts.length with hi1
        have hsame : (i1 + 1) % st.accounts.length = i1 := hids.symm
        rcases Nat.lt_or_ge (i1 + 1) st.accounts.length with hlt | hge
        · rw [Nat.mod_eq_of_lt hlt] at hsame
          omega
        · have hi1N : i1 + 1 = st.accounts.length := by omega
          rw [hi1N, Nat.mod_self] at hsame
          omega

theorem C10_witness :
    (getNextAccount 0 (initState [⟨"a1", none⟩, ⟨"a2", none⟩] 0)).1 =
      .ok ⟨"a2", none⟩ :=
  (C10_cursor_preincrement 0).1 [⟨"a1", none⟩, ⟨"a2", none⟩] (by decide)
    (by decide) ⟨"a2", none⟩ (by decide)


/-- C4 (counterexample): a double-brace placeholder is NOT replaced by the
bare field value.  With recipient `{name: "Sam"}`, the template `{{name}}`
comes out as `{Sam}` — the regex `\{\s*name\s*\}` replaces only the inner
single-brace core — so the claim's `{{key}}` clause fails on the code. -/
theorem C4_counterexample :
    substituteAll [("name", "Sam")] "{{name}}" = "{Sam}" ∧
    substituteAll [("name", "Sam")] "{{name}}" ≠ "Sam" := by
  have hd : "{{name}}".data = ['{', '{', 'n', 'a', 'm', 'e', '}', '}'] := rfl
  have hk : "name".data = ['n', 'a', 'm', 'e'] := rfl
  have h : substituteAll [("name", "Sam")] "{{name}}" = "{Sam}" := by
    show (⟨substChars "name".data "Sam".data "{{name}}".data⟩ : String) = "{Sam}"
    rw [hd, hk]
    simp +decide [substChars_step, substChars_nil, matchPlaceholder, isSpaceChar,
      List.dropWhile, List.isPrefixOf]
  exact ⟨h, by rw [h]; decide⟩

/-- C4 (amended): every single-brace `{key}` placeholder whose key is a
field of the recipient record is replaced by that field's value (subject
and body are processed by the same substitution); a placeholder whose key
is not a field of the record is left verbatim; a double-brace `{{key}}`
placeholder has only its inner `{key}` core replaced, yielding
`{value}` with one brace pair left.  (JavaScript's `$`-escape handling in
replacement strings is outside the model, so values are restricted to
`$`-free strings.) -/
theorem C4_placeholder_substitution :
    (∀ v : String, ¬ '$' ∈ v.data →
      substituteAll [("name", v)] "Hi {name}" = "Hi " ++ v) ∧
    (∀ v : String, ¬ '$' ∈ v.data →
      substituteAll [("name", v)] "{{name}}" = "\x7b" ++ v ++ "\x7d") ∧
    (∀ v : String, substituteAll [("name", v)] "{missing}" = "{missing}") := by
  have hk : "name".data = ['n', 'a', 'm', 'e'] := rfl
  refine ⟨?_, ?_, ?_⟩
  · intro v _
    show (⟨substChars "name".data v.data "Hi {name}".data⟩ : String) = "Hi " ++ v
    have hd : "Hi {name}".data = ['H', 'i', ' ', '{', 'n', 'a', 'm', 'e', '}'] := rfl
    rw [hd, hk]
    simp +decide [substChars_step, substChars_nil, matchPlaceholder, isSpaceChar,
      List.dropWhile, List.isPrefixOf]
    rfl
  · intro v _
    show (⟨substChars "name".data v.data "{{name}}".data⟩ : String) = "\x7b" ++ v ++ "\x7d"
    have hd : "{{name}}".data = ['{', '{', 'n', 'a', 'm', 'e', '}', '}'] := rfl
    rw [hd, hk]
    simp +decide [substChars_step, substChars_nil, matchPlaceholder, isSpaceChar,
      List.dropWhile, List.isPrefixOf]
    rfl
  · intro v
    show (⟨substChars "name".data v.data "{missing}".data⟩ : String) = "{missing}"
    have hd : "{missing}".data =
      ['{', 'm', 'i', 's', 's', 'i', 'n', 'g', '}'] := rfl
    rw [hd, hk]
    simp +decide [substChars_step, substChars_nil, matchPlaceholder, isSpaceChar,
      List.dropWhile, List.isPrefixOf]

theorem C4_witness :
    substituteAll [("name", "Sam")] "Hi {name}" = "Hi Sam" ∧
    substituteAll [("name", "Sam")] "{missing}" = "{missing}" :=
  ⟨C4_placeholder_substitution.1 "Sam" (by decide),
   C4_placeholder_substitution.2.2 "Sam"⟩


/-- C7: with N ≥ 1 accounts, none rate limited and none carrying a daily
limit, `getNextAccount` behaves as a fair round-robin: call i returns the
account one-past-the-cursor advanced i positions (wrapping modulo N), the
first N calls visit every account at least once, call N+1 returns the same
account as call 1, and when no account is eligible a single pass reports
`allExhausted`. -/
theorem C7_round_robin (today : Nat) (st : SchedState) (N : Nat)
    (hN : st.accounts.length = N) (h1 : 1 ≤ N) (he : allEligible st) :
    (∀ i a, i < N + 1 →
      st.accounts[(st.cursor + i + 1) % N]? = some a →
      (selectResults today (N + 1) st)[i]? = some (.ok a)) ∧
    (∀ j a, j < N → st.accounts[j]? = some a →
      ∃ i, i < N ∧ (selectResults today (N + 1) st)[i]? = some (.ok a)) ∧
    ((selectResults today (N + 1) st)[N]? =
      (selectResults today (N + 1) st)[0]?) ∧
    (∀ st' : SchedState, st'.accounts ≠ [] →
      (∀ a ∈ st'.accounts,
        eligible a (checkAndResetLimits today st'.usage a.id) = false) →
      (getNextAccount today st').1 = .allExhausted) := by
  subst hN
  have hne : st.accounts.length ≠ 0 := by omega
  have main : ∀ i a, i < st.accounts.length + 1 →
      st.accounts[(st.cursor + i + 1) % st.accounts.length]? = some a →
      (selectResults today (st.accounts.length + 1) st)[i]? = some (.ok a) :=
    fun i a hi ha =>
      selectResults_allEligible (st.accounts.length + 1) st hne he i a hi ha
  have key : ∀ i : Nat, (st.cursor + i + 1) % st.accounts.length =
      ((st.cursor + 1) % st.accounts.length + i) % st.accounts.length := by
    intro i
    conv_lhs => rw [show st.cursor + i + 1 = (st.cursor + 1) + i by omega]
    exact (Nat.mod_add_mod _ _ _).symm
  refine ⟨main, ?_, ?_, ?_⟩
  · intro j a hj ha
    have hmlt : (st.cursor + 1) % st.accounts.length < st.accounts.length :=
      Nat.mod_lt _ (by omega)
    by_cases hcase : (st.cursor + 1) % st.accounts.length ≤ j
    · refine ⟨j - (st.cursor + 1) % st.accounts.length, by omega, ?_⟩
      apply main _ _ (by omega)
      rw [key, show (st.cursor + 1) % st.accounts.length +
          (j - (st.cursor + 1) % st.accounts.length) = j by omega,
        Nat.mod_eq_of_lt hj]
      exact ha
    · push_neg at hcase
      refine ⟨st.accounts.length + j - (st.cursor + 1) % st.accounts.length,
        by omega, ?_⟩
      apply main _ _ (by omega)
      rw [key, show (st.cursor + 1) % st.accounts.length +
          (st.accounts.length + j - (st.cursor + 1) % st.accounts.length) =
          st.accounts.length + j by omega,
        Nat.add_mod_left, Nat.mod_eq_of_lt hj]
      exact ha
  · have hmlt : (st.cursor + 1) % st.accounts.length < st.accounts.length :=
      Nat.mod_lt _ (by omega)
    cases hA : st.accounts[(st.cursor + 1) % st.accounts.length]? with
    | none =>
      rw [List.getElem?_eq_none_iff] at hA
      omega
    | some a0 =>
      have h0 : (selectResults today (st.accounts.length + 1) st)[0]? =
          some (.ok a0) := by
        apply main 0 a0 (by omega)
        rw [show st.cursor + 0 + 1 = st.cursor + 1 by omega]
        exact hA
      have hL : (selectResults today (st.accounts.length + 1)
          st)[st.accounts.length]? = some (.ok a0) := by
        apply main st.accounts.length a0 (by omega)
        rw [show st.cursor + st.accounts.length + 1 =
          (st.cursor + 1) + st.accounts.length by omega, Nat.add_mod_right]
        exact hA
      rw [h0, hL]
  · intro st' hne' hall
    exact getNextAccount_exhausted (fun h => hne' (List.length_eq_zero.mp h)) hall


theorem C7_witness :
    (selectResults 0 3
      ⟨[⟨"a1", none⟩, ⟨"a2", none⟩], fun _ => ⟨0, 0, false⟩, 0⟩)[2]? =
    (selectResults 0 3
      ⟨[⟨"a1", none⟩, ⟨"a2", none⟩], fun _ => ⟨0, 0, false⟩, 0⟩)[0]? :=
  (C7_round_robin 0
    ⟨[⟨"a1", none⟩, ⟨"a2", none⟩], fun _ => ⟨0, 0, false⟩, 0⟩ 2
    rfl (by omega) (by decide)).2.2.1

/-- C3: the batch route processes recipients strictly one at a time in
order (one result entry per recipient, in the same order), a recipient's
failure is recorded as that recipient's error entry without aborting the
rest, and the aggregate counts always satisfy
`succeeded + failed = total = recipients.length`. -/
theorem C3_batch_isolation (today : Nat) (subject body : String)
    (accId : Option String) (mailer : Nat → MailOutcome)
    (recipients : List Recipient) (st : SchedState) (idx : Nat) :
    ((sendBatch today subject body accId mailer recipients st idx).1.length =
      recipients.length) ∧
    ((sendBatch today subject body accId mailer recipients st idx).1.map
      BatchEntry.recipient = recipients) ∧
    ((batchOutcome (sendBatch today subject body accId mailer recipients st
        idx).1).succeeded +
      (batchOutcome (sendBatch today subject body accId mailer recipients st
        idx).1).failed =
      (batchOutcome (sendBatch today subject body accId mailer recipients st
        idx).1).total) ∧
    ((batchOutcome (sendBatch today subject body accId mailer recipients st
        idx).1).total = recipients.length) ∧
    (∀ e ∈ (sendBatch today subject body accId mailer recipients st idx).1,
      e.status = "success" ∨ (e.status = "error" ∧ e.errorMsg ≠ none)) := by
  obtain ⟨hmap, hstat⟩ :=
    sendBatch_entries today subject body accId mailer recipients st idx
  have hlen : (sendBatch today subject body accId mailer recipients st
      idx).1.length = recipients.length := by
    have := congrArg List.length hmap
    simpa using this
  have hse : ∀ e ∈ (sendBatch today subject body accId mailer recipients st
      idx).1, e.status = "success" ∨ e.status = "error" :=
    fun e he => (hstat e he).imp And.left And.left
  refine ⟨hlen, hmap, ?_, hlen, fun e he => (hstat e he).imp And.left id⟩
  simp only [batchOutcome]
  exact count_status hse


/-- C6: when a send attempt (with resolved account `a`) fails with a
provider response code in `{421, 450, 550, 552, 554}`, the `catch` block
immediately — before any retry — sets `a`'s `isRateLimited`; a failure
with any other (or no) response code leaves the usage map untouched; once
the flag is set, a `getNextAccount` call on the same day never returns
`a`; and within a whole retry loop a set flag is never cleared (only a
date rollover clears it). -/
theorem C6_throttle_marking (today : Nat) (accId : Option String)
    (mailer : Nat → MailOutcome) (st : SchedState) (idx : Nat) (a : Account)
    (st₁ : SchedState)
    (hcur : ∀ x, (st.usage x).lastReset = today)
    (hres : resolveAccount today accId st = (.ok a, st₁)) :
    (∀ c m, mailer idx = .failure (some c) m → c ∈ throttleCodes →
      (((attemptStep today accId mailer st idx).2.1).usage a.id).isRateLimited =
        true) ∧
    (∀ c m, mailer idx = .failure c m →
      (∀ code, c = some code → code ∉ throttleCodes) →
      ((attemptStep today accId mailer st idx).2.1).usage = st.usage) ∧
    (∀ c m, mailer idx = .failure (some c) m → c ∈ throttleCodes →
      ∀ st₂ : SchedState,
        st₂.usage = ((attemptStep today accId mailer st idx).2.1).usage →
        ∀ st₃, getNextAccount today st₂ ≠ (.ok a, st₃)) ∧
    (∀ b rl idx0, (st.usage b).isRateLimited = true →
      (((sendLoop today accId mailer st idx0 rl).state).usage b).isRateLimited =
        true) := by
  obtain ⟨hsucc, hthr, hother⟩ := attemptStep_effect hcur hres
  have hmark : ∀ c m, mailer idx = .failure (some c) m → c ∈ throttleCodes →
      (((attemptStep today accId mailer st idx).2.1).usage a.id).isRateLimited =
        true := by
    intro c m hm hc
    rw [hthr c m hm hc]
    simp [markRateLimited]
  refine ⟨hmark, hother, ?_, ?_⟩
  · intro c m hm hc st₂ hu st₃
    apply getNextAccount_not_ok
    have hlr : (st₂.usage a.id).lastReset = today := by
      rw [hu, hthr c m hm hc, markRateLimited_lastReset]
      exact hcur a.id
    have hfl : (st₂.usage a.id).isRateLimited = true := by
      rw [hu]
      exact hmark c m hm hc
    rw [show checkAndResetLimits today st₂.usage a.id = st₂.usage a.id from
      rollRecord_of_current hlr]
    simp [eligible, hfl]
  · intro b rl idx0 hb
    exact (sendLoop_preserves rl st idx0 hcur).2 b hb

/-- C8: during a single send attempt with resolved account `a` (on a day
whose records are current), only `a`'s usage record is mutated: every
other account's record is untouched, success increments `a.sentToday` by
exactly one, and a failed attempt never increments `sentToday`. -/
theorem C8_frame (today : Nat) (accId : Option String)
    (mailer : Nat → MailOutcome) (st : SchedState) (idx : Nat) (a : Account)
    (st₁ : SchedState)
    (hcur : ∀ x, (st.usage x).lastReset = today)
    (hres : resolveAccount today accId st = (.ok a, st₁)) :
    (∀ b, b ≠ a.id →
      ((attemptStep today accId mailer st idx).2.1).usage b = st.usage b) ∧
    (mailer idx = .success →
      ((attemptStep today accId mailer st idx).2.1).usage a.id =
        { st.usage a.id with sentToday := (st.usage a.id).sentToday + 1 }) ∧
    (∀ c m, mailer idx = .failure c m →
      (((attemptStep today accId mailer st idx).2.1).usage a.id).sentToday =
        (st.usage a.id).sentToday) := by
  obtain ⟨hsucc, hthr, hother⟩ := attemptStep_effect hcur hres
  refine ⟨?_, ?_, ?_⟩
  · intro b hb
    cases hm : mailer idx with
    | success =>
      rw [hsucc hm]
      simp [recordSent, hb]
    | failure c m =>
      cases c with
      | none =>
        rw [hother none m hm (fun code h => by cases h)]
      | some code =>
        by_cases hc : code ∈ throttleCodes
        · rw [hthr code m hm hc]
          simp [markRateLimited, hb]
        · rw [hother (some code) m hm
            (fun c' hcc => by injection hcc with h; rw [← h]; exact hc)]
  · intro hm
    rw [hsucc hm]
    simp [recordSent]
  · intro c m hm
    cases c with
    | none =>
      rw [hother none m hm (fun code h => by cases h)]
    | some code =>
      by_cases hc : code ∈ throttleCodes
      · rw [hthr code m hm hc]
        simp [markRateLimited]
      · rw [hother (some code) m hm
          (fun c' hcc => by injection hcc with h; rw [← h]; exact hc)]


theorem C3_witness :
    (batchOutcome (sendBatch 0 "Hi {name}" "body" none (fun _ => .success)
      [[("name", "A")], [("name", "B")]]
      ⟨[⟨"a1", none⟩], fun _ => ⟨0, 0, false⟩, 0⟩ 0).1).total = 2 :=
  (C3_batch_isolation 0 "Hi {name}" "body" none (fun _ => .success)
    [[("name", "A")], [("name", "B")]]
    ⟨[⟨"a1", none⟩], fun _ => ⟨0, 0, false⟩, 0⟩ 0).2.2.2.1

theorem C6_witness :
    (((attemptStep 0 (some "a1") (fun _ => .failure (some 550) "blocked")
      ⟨[⟨"a1", none⟩], fun _ => ⟨0, 0, false⟩, 0⟩ 0).2.1).usage
        "a1").isRateLimited = true :=
  (C6_throttle_marking 0 (some "a1") (fun _ => .failure (some 550) "blocked")
    ⟨[⟨"a1", none⟩], fun _ => ⟨0, 0, false⟩, 0⟩ 0 ⟨"a1", none⟩
    ⟨[⟨"a1", none⟩], fun _ => ⟨0, 0, false⟩, 0⟩ (fun _ => rfl) rfl).1
    550 "blocked" rfl (by decide)

theorem C8_witness :
    ((attemptStep 0 (some "a1") (fun _ => .success)
      ⟨[⟨"a1", none⟩], fun _ => ⟨0, 0, false⟩, 0⟩ 0).2.1).usage "a1" =
      ⟨1, 0, false⟩ :=
  (C8_frame 0 (some "a1") (fun _ => .success)
    ⟨[⟨"a1", none⟩], fun _ => ⟨0, 0, false⟩, 0⟩ 0 ⟨"a1", none⟩
    ⟨[⟨"a1", none⟩], fun _ => ⟨0, 0, false⟩, 0⟩ (fun _ => rfl) rfl).2.1 rfl


/-- C2: the retry policy of `sendEmail` for an explicitly pinned account:
up to `MAX_RETRIES = 3` retries (four transport attempts in all), with
backoff delays of 1000, 2000 and 4000 ms (1x, 2x, 4x the base unit); every
retry re-resolves the pinned account against itself; transport failures on
attempts 1-3 followed by success on attempt 4 yield an overall success
through that account after exactly four mailer invocations; if attempt 4
also fails, the call throws the terminal 503 error carrying the last
failure's message. -/
theorem C2_retry_policy (today : Nat) (st : SchedState) (aid : String)
    (a : Account) (mailer : Nat → MailOutcome) (c0 c1 c2 : Option Nat)
    (m0 m1 m2 : String)
    (hfind : st.accounts.find? (fun x => x.id == aid) = some a)
    (h0 : mailer 0 = .failure c0 m0) (h1 : mailer 1 = .failure c1 m1)
    (h2 : mailer 2 = .failure c2 m2) :
    (mailer 3 = .success →
      (sendEmail today (some aid) mailer st 0).result = .ok ⟨a.id⟩ ∧
      (sendEmail today (some aid) mailer st 0).nextIdx = 4 ∧
      (sendEmail today (some aid) mailer st 0).delays = [1000, 2000, 4000]) ∧
    (∀ c3 m3, mailer 3 = .failure c3 m3 →
      (sendEmail today (some aid) mailer st 0).result =
        .error ⟨503, failedAfterMsg m3⟩ ∧
      (sendEmail today (some aid) mailer st 0).nextIdx = 4 ∧
      (sendEmail today (some aid) mailer st 0).delays = [1000, 2000, 4000]) := by
  have hfail : ∀ j, j < 3 → ∃ c m, mailer (0 + j) = .failure c m := by
    intro j hj
    interval_cases j
    · exact ⟨c0, m0, by simpa using h0⟩
    · exact ⟨c1, m1, by simpa using h1⟩
    · exact ⟨c2, m2, by simpa using h2⟩
  have heq : sendEmail today (some aid) mailer st 0 =
      sendLoop today (some aid) mailer st 0 3 := rfl
  constructor
  · intro h3
    have h3' : mailer (0 + 3) = .success := by simpa using h3
    obtain ⟨r1, r2, r3⟩ :=
      sendLoop_pinned_fail_then_succeed today 3 st 0 hfind hfail h3'
    rw [heq]
    refine ⟨r1, ?_, ?_⟩
    · rw [r2]
    · rw [r3]
      decide
  · intro c3 m3 h3
    have h3' : mailer (0 + 3) = .failure c3 m3 := by simpa using h3
    obtain ⟨r1, r2, r3⟩ :=
      sendLoop_pinned_all_fail today 3 st 0 hfind hfail c3 m3 h3'
    rw [heq]
    refine ⟨r1, ?_, ?_⟩
    · rw [r2]
    · rw [r3]
      decide

theorem C2_witness :
    (sendEmail 0 (some "a1")
      (fun i => if i < 3 then .failure (some 500) "boom" else .success)
      ⟨[⟨"a1", some 10⟩], fun _ => ⟨0, 0, false⟩, 0⟩ 0).result =
        .ok ⟨"a1"⟩ ∧
    (sendEmail 0 (some "a1")
      (fun i => if i < 3 then .failure (some 500) "boom" else .success)
      ⟨[⟨"a1", some 10⟩], fun _ => ⟨0, 0, false⟩, 0⟩ 0).nextIdx = 4 ∧
    (sendEmail 0 (some "a1")
      (fun i => if i < 3 then .failure (some 500) "boom" else .success)
      ⟨[⟨"a1", some 10⟩], fun _ => ⟨0, 0, false⟩, 0⟩ 0).delays =
        [1000, 2000, 4000] :=
  (C2_retry_policy 0 ⟨[⟨"a1", some 10⟩], fun _ => ⟨0, 0, false⟩, 0⟩ "a1"
    ⟨"a1", some 10⟩
    (fun i => if i < 3 then .failure (some 500) "boom" else .success)
    (some 500) (some 500) (some 500) "boom" "boom" "boom"
    rfl rfl rfl rfl).1 rfl


/-- C1 (counterexample): a selection failure IS retried by the scheduler
and its classification is NOT surfaced.  With no accounts configured,
`sendEmail` consumes all three backoff delays (1000, 2000, 4000 ms) and
then surfaces a generic 503 `DeliveryFailed` error wrapping the selection
message; with a pinned account id matching no account, the surfaced error
is likewise a 503 wrapping the lookup message, not the 404
`AccountNotFound` classification. -/
theorem C1_counterexample :
    (sendEmail 0 none (fun _ => .success)
      ⟨[], fun _ => ⟨0, 0, false⟩, 0⟩ 0).delays = [1000, 2000, 4000] ∧
    (sendEmail 0 none (fun _ => .success)
      ⟨[], fun _ => ⟨0, 0, false⟩, 0⟩ 0).delays ≠ [] ∧
    (sendEmail 0 none (fun _ => .success)
      ⟨[], fun _ => ⟨0, 0, false⟩, 0⟩ 0).result =
      .error ⟨503, failedAfterMsg noAccountsMsg⟩ ∧
    (sendEmail 0 (some "zz") (fun _ => .success)
      ⟨[⟨"a1", none⟩], fun _ => ⟨0, 0, false⟩, 0⟩ 0).result =
      .error ⟨503, failedAfterMsg (notFoundMsg "zz")⟩ := by
  refine ⟨by decide, by decide, rfl, rfl⟩

/-- C1 (amended): the three selection failures are raised inside the
`try` of `sendEmail`, so the retry wrapper treats them like transient
failures: it burns all `MAX_RETRIES` backoff retries (delays 1000, 2000,
4000 ms), never invokes the transport, and then surfaces a terminal 503
error whose message wraps the selection failure's message — the original
classification (503 no-accounts / 404 not-found / 429 exhausted) is not
surfaced to the caller. -/
theorem C1_selection_failures_retried (today : Nat)
    (mailer : Nat → MailOutcome) (st : SchedState) :
    (st.accounts = [] →
      sendEmail today none mailer st 0 =
        ⟨.error ⟨503, failedAfterMsg noAccountsMsg⟩,
         ⟨st.accounts, checkAndResetLimits today st.usage, st.cursor⟩, 0,
         [1000, 2000, 4000]⟩) ∧
    (∀ aid, st.accounts.find? (fun x => x.id == aid) = none →
      sendEmail today (some aid) mailer st 0 =
        ⟨.error ⟨503, failedAfterMsg (notFoundMsg aid)⟩, st, 0,
         [1000, 2000, 4000]⟩) ∧
    (st.accounts ≠ [] →
      (∀ a ∈ st.accounts,
        eligible a (checkAndResetLimits today st.usage a.id) = false) →
      (sendEmail today none mailer st 0).result =
        .error ⟨503, failedAfterMsg allExhaustedMsg⟩ ∧
      (sendEmail today none mailer st 0).nextIdx = 0 ∧
      (sendEmail today none mailer st 0).delays = [1000, 2000, 4000]) := by
  have hbd : backoffDelays 3 = [1000, 2000, 4000] := by decide
  refine ⟨?_, ?_, ?_⟩
  · intro hacc
    have h := sendLoop_noAccounts today mailer 3 st 0 hacc
    have heq : sendEmail today none mailer st 0 =
        sendLoop today none mailer st 0 3 := rfl
    rw [heq, h, hbd]
  · intro aid hfind
    have h := sendLoop_notFound today mailer 3 st 0 hfind
    have heq : sendEmail today (some aid) mailer st 0 =
        sendLoop today (some aid) mailer st 0 3 := rfl
    rw [heq, h, hbd]
  · intro hne hall
    obtain ⟨r1, r2, r3⟩ :=
      sendLoop_exhausted today mailer 3 st 0 hne hall
    have heq : sendEmail today none mailer st 0 =
        sendLoop today none mailer st 0 3 := rfl
    rw [heq]
    exact ⟨r1, r2, by rw [r3, hbd]⟩

theorem C1_witness :
    (sendEmail 0 none (fun _ => .success)
      ⟨[⟨"a1", none⟩], fun _ => ⟨0, 0, true⟩, 0⟩ 0).result =
      .error ⟨503, failedAfterMsg allExhaustedMsg⟩ ∧
    (sendEmail 0 none (fun _ => .success)
      ⟨[⟨"a1", none⟩], fun _ => ⟨0, 0, true⟩, 0⟩ 0).nextIdx = 0 ∧
    (sendEmail 0 none (fun _ => .success)
      ⟨[⟨"a1", none⟩], fun _ => ⟨0, 0, true⟩, 0⟩ 0).delays =
      [1000, 2000, 4000] :=
  (C1_selection_failures_retried 0 (fun _ => .success)
    ⟨[⟨"a1", none⟩], fun _ => ⟨0, 0, true⟩, 0⟩).2.2 (by decide) (by decide)

end PrelaxEmail
